import Mathlib

/-!
Verification development for the DeepPavlov coreference-resolution model
(`deeppavlov/models/coreference_resolution/model.py`) and the small
preprocessing component `CharConnector`
(`deeppavlov/models/preprocessors/char_connector.py`).

The Python source is shallowly embedded: pure functions become Lean
functions over lists; numpy indexing that can raise `IndexError`, and the
`assert` statement, are modelled by `Option`-returning functions
(`none` = the Python code raises).  Floating-point scores are embedded as
elements of a linear order (for the decoding functions, which only compare
scores), as rationals/reals (for loss arithmetic), or as `EReal`
(where the code manufactures `-inf` via `log 0`).
-/

namespace DP

/-! ### Generic helpers: Python dictionaries as association lists -/

/-- Lookup in an insertion-ordered association list (Python `dict` read). -/
def dictLookup {κ β : Type} [DecidableEq κ] : List (κ × β) → κ → Option β
  | [], _ => none
  | (k', v) :: rest, k => if k' = k then some v else dictLookup rest k

/-- Python `d[k] = v`: replace the value in place if the key is present,
otherwise append the binding at the end. -/
def dictInsert {κ β : Type} [DecidableEq κ] : List (κ × β) → κ → β → List (κ × β)
  | [], k, v => [(k, v)]
  | (k', v') :: rest, k, v =>
      if k' = k then (k, v) :: rest else (k', v') :: dictInsert rest k v

/-! ### CharConnector (`char_connector.py`)

`CharConnector.__call__(batch) = ["".join(sample) for sample in batch]`. -/

/-- Embedding of `CharConnector.__call__`: each sample (a list of
character strings) is joined into a single string. -/
def charConnector (batch : List (List String)) : List String :=
  batch.map (fun sample => String.join sample)

/-! ### Embedding-format validation (`CorefModel.__init__`, lines 75-77)

The constructor checks `emb_format` against the two supported values and
raises `ConfigError` before building any graph or session state; the rest
of the construction is abstracted by a builder function that is only run
on the success path. -/

/-- Embedding of the `emb_format` check in `CorefModel.__init__`:
`if self.emb_format not in ["std_emb", "cached"]: raise ConfigError(...)`,
followed by the rest of construction (graph/session building), abstracted
as `build`.  The result is `Except`: `.error` models the raised
`ConfigError`. -/
def corefInit {σ : Type} (emb_format : String) (build : Unit → σ) :
    Except String σ :=
  if emb_format = "std_emb" ∨ emb_format = "cached" then
    Except.ok (build ())
  else
    Except.error "Embedding format must be std_emb or cached"

/-! ### Greedy antecedent decoding (`get_predicted_antecedents`)

`np.argmax(row)` returns the index of the first maximal entry of a row. -/

/-- Index of the first maximal element, scanning with a current best value
`bv` at index `best`, the next element having index `i`. -/
def argmaxAux {α : Type} [LinearOrder α] : List α → Nat → α → Nat → Nat
  | [], _, _, best => best
  | x :: xs, i, bv, best =>
      if bv < x then argmaxAux xs (i + 1) x i else argmaxAux xs (i + 1) bv best

/-- Embedding of `np.argmax` on one row (first maximal index; `0` on the
empty row, where numpy would raise). -/
def argmaxIdx {α : Type} [LinearOrder α] : List α → Nat
  | [] => 0
  | x :: xs => argmaxAux xs 1 x 0

/-- One row of `get_predicted_antecedents`: `index = argmax(scores) - 1`;
if `index < 0` the predicted antecedent is `-1`, otherwise it is
`antecedents[i, index]` (out-of-range indexing models numpy
`IndexError` as `none`). -/
def gpaRow {α : Type} [LinearOrder α] (arow : List Int) (srow : List α) :
    Option Int :=
  if argmaxIdx srow = 0 then some (-1) else arow.get? (argmaxIdx srow - 1)

/-- The loop of `get_predicted_antecedents` over rows, carrying the row
index (only used for specification purposes; the code indexes the two
matrices in lockstep). -/
def gpaLoop {α : Type} [LinearOrder α] :
    Nat → List (List Int × List α) → Option (List Int)
  | _, [] => some []
  | i, (arow, srow) :: rest =>
      match gpaRow arow srow with
      | none => none
      | some x =>
          match gpaLoop (i + 1) rest with
          | none => none
          | some xs => some (x :: xs)

/-- Embedding of `CorefModel.get_predicted_antecedents` (lines 575-592). -/
def getPredictedAntecedents {α : Type} [LinearOrder α]
    (antecedents : List (List Int)) (antecedent_scores : List (List α)) :
    Option (List Int) :=
  gpaLoop 0 (antecedents.zip antecedent_scores)

/-! ### Greedy clustering (`get_predicted_clusters`, lines 724-760) -/

/-- A mention span `(start, end)`. -/
abbrev Span := Int × Int

/-- The mutable state of the decoding loop: `predicted_clusters` and the
`mention_to_predicted` dictionary, the latter mapping a span to the index
of its cluster while the loop runs. -/
structure ClusterState where
  clusters : List (List Span)
  m2p : List (Span × Nat)
  deriving DecidableEq

/-- Append an element to the `c`-th inner list (Python
`predicted_clusters[c].append(x)`; in the source `c` is always in
range). -/
def appendAt {β : Type} : List (List β) → Nat → β → List (List β)
  | [], _, _ => []
  | cl :: cls, 0, x => (cl ++ [x]) :: cls
  | cl :: cls, n + 1, x => cl :: appendAt cls n x

/-- `(int(mention_starts[i]), int(mention_ends[i]))`, `none` on a numpy
index error. -/
def spanAt (starts ends : List Int) (i : Nat) : Option Span :=
  match starts.get? i, ends.get? i with
  | some s, some e => some (s, e)
  | _, _ => none

/-- The state update of one `get_predicted_clusters` iteration once the
antecedent span `ant` and mention span `m` are read off the arrays: find
or create the antecedent's cluster, append the mention to it, and record
the mention's cluster in `mention_to_predicted`. -/
def gpcUpdate (st : ClusterState) (ant m : Span) : ClusterState :=
  match dictLookup st.m2p ant with
  | some c => ⟨appendAt st.clusters c m, dictInsert st.m2p m c⟩
  | none =>
      ⟨appendAt (st.clusters ++ [[ant]]) st.clusters.length m,
       dictInsert (dictInsert st.m2p ant st.clusters.length) m
         st.clusters.length⟩

/-- One iteration of the `get_predicted_clusters` loop for mention `i`
with predicted antecedent `pidx`.  `none` models a failure of the
`assert i > predicted_index` statement or a numpy index error. -/
def gpcStep (starts ends : List Int) (i : Nat) (pidx : Int)
    (st : ClusterState) : Option ClusterState :=
  if pidx < 0 then some st
  else if pidx < (i : Int) then
    match spanAt starts ends pidx.toNat, spanAt starts ends i with
    | some ant, some m => some (gpcUpdate st ant m)
    | _, _ => none
  else none

/-- The loop `for i, predicted_index in enumerate(predicted_antecedents)`
starting at index `k`. -/
def gpcLoop (starts ends : List Int) : Nat → List Int → ClusterState →
    Option ClusterState
  | _, [], st => some st
  | i, p :: rest, st =>
      match gpcStep starts ends i p st with
      | some st' => gpcLoop starts ends (i + 1) rest st'
      | none => none

/-- Embedding of `CorefModel.get_predicted_clusters`: returns the cluster
list and the final `mention_to_predicted` mapping, the latter resolved
from cluster indices to cluster contents as in the final dict
comprehension of the source. -/
def getPredictedClusters (starts ends : List Int) (pa : List Int) :
    Option (List (List Span) × List (Span × List Span)) :=
  match gpcLoop starts ends 0 pa ⟨[], []⟩ with
  | some st =>
      some (st.clusters, st.m2p.map (fun kv => (kv.1, st.clusters.getD kv.2 [])))
  | none => none

/-- Loop invariant of the clustering decode after the first `k` mentions
are processed: the `mention_to_predicted` dictionary maps exactly the
spans placed in a cluster, each mapped span lies in the cluster at its
recorded index and in no other cluster, unmapped spans lie in no cluster,
and every mapped span is the span of a mention index below `k`. -/
def DecodeInv (starts ends : List Int) (k : Nat) (st : ClusterState) : Prop :=
  (∀ m c, dictLookup st.m2p m = some c →
    m ∈ st.clusters.getD c [] ∧
    st.clusters.countP (fun cl => decide (m ∈ cl)) = 1) ∧
  (∀ m, dictLookup st.m2p m = none →
    st.clusters.countP (fun cl => decide (m ∈ cl)) = 0) ∧
  (∀ m c, dictLookup st.m2p m = some c →
    ∃ j, j < k ∧ spanAt starts ends j = some m)

/-! ### Gold-cluster tensorization (`tensorize_example`, lines 227-277)

`gold_mentions = sorted(tuple(m) for m in flatten(clusters))` (Python
`sorted` on pairs is ascending lexicographic order), then
`cluster_ids[gold_mention_map[m]] = cluster_id` for
`cluster_id, cluster in enumerate(clusters)`. -/

/-- Lexicographic order on spans, as Python compares tuples. -/
def spanLe (a b : Span) : Bool :=
  decide (a.1 < b.1) || (decide (a.1 = b.1) && decide (a.2 ≤ b.2))

/-- Insert into a `spanLe`-sorted list. -/
def insertSpan (x : Span) : List Span → List Span
  | [] => [x]
  | y :: ys => if spanLe x y then x :: y :: ys else y :: insertSpan x ys

/-- Python `sorted` on a list of spans (insertion sort, ascending
lexicographic). -/
def sortSpans : List Span → List Span
  | [] => []
  | x :: xs => insertSpan x (sortSpans xs)

/-- `gold_mentions = sorted(tuple(m) for m in flatten(clusters))`. -/
def goldMentions (clusters : List (List Span)) : List Span :=
  sortSpans clusters.flatten

/-- `gold_mention_map = {m: i for i, m in enumerate(gold_mentions)}`. -/
def goldMentionMap (gm : List Span) : List (Span × Nat) :=
  gm.enum.foldl (fun d p => dictInsert d p.2 p.1) []

/-- Embedding of the `cluster_ids` construction in `tensorize_example`
(lines 234-238): a zero array of length `len(gold_mentions)`, then
`cluster_ids[gold_mention_map[tuple(mention)]] = cluster_id` for
`cluster_id, cluster in enumerate(clusters)` (note: `enumerate` starts at
0, so the first gold cluster is assigned id 0). -/
def clusterIds (clusters : List (List Span)) : List Nat :=
  let gm := goldMentions clusters
  let gmap := goldMentionMap gm
  clusters.enum.foldl
    (fun arr p =>
      p.2.foldl
        (fun arr m =>
          match dictLookup gmap m with
          | some i => arr.set i p.1
          | none => arr)
        arr)
    (List.replicate gm.length 0)

/-- Embedding of `CorefModel.tensorize_mentions` (lines 197-212):
`starts, ends = zip(*mentions)` (empty lists for no mentions). -/
def tensorizeMentions (mentions : List Span) : List Int × List Int :=
  (mentions.map Prod.fst, mentions.map Prod.snd)

/-! ### Train-on-gold mention selection
(`get_predictions_and_loss`, lines 661-670)

When `self.train_on_gold` holds, the mention set handed to the antecedent
module is the gold spans themselves and every mention score is
`tf.ones(tf.shape(gold_ends))`; span enumeration (`self.spans`), mention
scoring (`get_mention_scores`) and pruning (`extract_mentions`) are not
executed on this branch. -/

/-- The retained mention set and scores on the `train_on_gold` branch. -/
structure MentionSelection where
  mention_starts : List Int
  mention_ends : List Int
  mention_scores : List ℚ
  deriving DecidableEq

/-- Embedding of lines 661-670: `mention_starts = gold_starts`,
`mention_ends = gold_ends`,
`candidate_mention_scores = tf.ones(tf.shape(gold_ends))`. -/
def trainOnGoldSelection (gold_starts gold_ends : List Int) : MentionSelection :=
  { mention_starts := gold_starts
    mention_ends := gold_ends
    mention_scores := List.replicate gold_ends.length 1 }

/-! ### Document tensorization and truncation
(`tensorize_example` lines 240-277, `truncate_example` lines 279-338)

The embedder, the char-index construction, the speaker dictionary and the
genre lookup are opaque collaborators of `tensorize_example`; they are
abstracted as function parameters.  `random.randint(0, num_sentences -
max_training_sentences)` is abstracted as the `offset` parameter (the
drawn value). -/

/-- The 9-tuple returned by `tensorize_example` / `truncate_example`.
`W` is the type of one sentence row of the word-embedding tensor, `C` of
one sentence row of the char-index tensor. -/
structure TensorizedExample (W C : Type) where
  word_emb : List W
  char_index : List C
  text_len : List Nat
  speaker_ids : List Nat
  genre : Nat
  is_training : Bool
  gold_starts : List Int
  gold_ends : List Int
  cluster_ids : List Nat

/-- numpy boolean-mask indexing `a[mask]` (the two arrays have equal
length in the source, asserted by numpy itself). -/
def applyMask {β : Type} (l : List β) (mask : List Bool) : List β :=
  (l.zip mask).filterMap (fun p => if p.2 then some p.1 else none)

/-- Embedding of `CorefModel.truncate_example`: keeps the contiguous
sentence window `[offset, offset + maxTS)`, slices `speaker_ids` by the
corresponding word window, and keeps a gold span iff
`gold_ends >= word_offset and gold_starts < word_offset + num_words`,
re-offsetting kept spans by `-word_offset` and filtering `cluster_ids` by
the same mask.  `none` models the failure of
`assert num_sentences > max_training_sentences`. -/
def truncateExample {W C : Type} (maxTS offset : Nat)
    (t : TensorizedExample W C) : Option (TensorizedExample W C) :=
  if t.word_emb.length > maxTS then
    let word_offset := (t.text_len.take offset).sum
    let num_words := ((t.text_len.drop offset).take maxTS).sum
    let mask := (t.gold_starts.zip t.gold_ends).map
      (fun p => decide ((word_offset : Int) ≤ p.2) &&
                decide (p.1 < (word_offset : Int) + (num_words : Int)))
    some
      { word_emb := (t.word_emb.drop offset).take maxTS
        char_index := (t.char_index.drop offset).take maxTS
        text_len := (t.text_len.drop offset).take maxTS
        speaker_ids := (t.speaker_ids.drop word_offset).take num_words
        genre := t.genre
        is_training := t.is_training
        gold_starts := (applyMask t.gold_starts mask).map
          (fun s => s - (word_offset : Int))
        gold_ends := (applyMask t.gold_ends mask).map
          (fun e => e - (word_offset : Int))
        cluster_ids := applyMask t.cluster_ids mask }
  else none

/-- The 9-tuple assembled by `tensorize_example` before the truncation
dispatch (lines 240-271), with the embedder, char-index construction,
speaker dictionary and genre lookup abstracted; `sents` is the sentence
list after the optional lowercasing pass. -/
def rawTensorized {W C : Type}
    (embed : List (List String) → List W)
    (charIndex : List (List String) → List C)
    (speakerDict : String → Nat) (genreOf : String → Nat)
    (sents : List (List String)) (speakers : List String)
    (doc_key : String) (clusters : List (List Span))
    (is_training : Bool) : TensorizedExample W C :=
  { word_emb := embed sents
    char_index := charIndex sents
    text_len := sents.map List.length
    speaker_ids := speakers.map speakerDict
    genre := genreOf doc_key
    is_training := is_training
    gold_starts := (tensorizeMentions (goldMentions clusters)).1
    gold_ends := (tensorizeMentions (goldMentions clusters)).2
    cluster_ids := clusterIds clusters }

/-- Embedding of `CorefModel.tensorize_example`: builds the gold arrays
and component tensors (collaborators abstracted), checks
`assert num_words == len(speakers)` (`none` on failure), and dispatches to
`truncate_example` exactly when
`is_training and len(sentences) > self.max_training_sentences`. -/
def tensorizeExample {W C : Type}
    (maxTS offset : Nat)
    (emb_lowercase : Bool) (lc : String → String)
    (embed : List (List String) → List W)
    (charIndex : List (List String) → List C)
    (speakerDict : String → Nat) (genreOf : String → Nat)
    (sentences : List (List String)) (speakers : List String)
    (doc_key : String) (clusters : List (List Span))
    (is_training : Bool) : Option (TensorizedExample W C) :=
  let sents := if emb_lowercase then sentences.map (List.map lc) else sentences
  let num_words := (sents.map List.length).sum
  if num_words = speakers.length then
    let t := rawTensorized embed charIndex speakerDict genreOf sents speakers
      doc_key clusters is_training
    if is_training ∧ sents.length > maxTS then truncateExample maxTS offset t
    else some t
  else none

/-! ### Softmax loss (`softmax_loss`, lines 406-422; document loss,
lines 716-717)

`gold_scores = antecedent_scores + log(labels)` with 0/1 labels: under the
IEEE semantics of the source, `exp(s + log 1) = exp s` and
`exp(s + log 0) = exp(-inf) = 0`, so the marginalized log-sum-exp of
`gold_scores` is the log of the sum of `exp s` over the gold-labelled
positions.  The rows are embedded over `ℝ` with that masking applied
inside the sum. -/

/-- `tf.reduce_logsumexp` argument for a full row: sum of `exp` over all
scores. -/
noncomputable def sumExp (l : List ℝ) : ℝ := (l.map Real.exp).sum

/-- Sum of `exp (s + log label)` over a row, under IEEE `log 0 = -inf`,
`exp (-inf) = 0`: masked positions contribute `0`. -/
noncomputable def goldExpSum (scores : List ℝ) (labels : List Bool) : ℝ :=
  ((scores.zip labels).map (fun p => if p.2 then Real.exp p.1 else 0)).sum

/-- Embedding of `CorefModel.softmax_loss` on one mention row:
`log_norm - marginalized_gold_scores`. -/
noncomputable def softmaxLossRow (scores : List ℝ) (labels : List Bool) : ℝ :=
  Real.log (sumExp scores) - Real.log (goldExpSum scores labels)

/-- Per-mention losses for a whole score/label matrix
(`softmax_loss` returns the `[num_mentions]` vector). -/
noncomputable def softmaxLoss (rows : List (List ℝ × List Bool)) : List ℝ :=
  rows.map (fun r => softmaxLossRow r.1 r.2)

/-- `loss = tf.reduce_sum(self.softmax_loss(...))`
(`get_predictions_and_loss`, lines 716-717). -/
noncomputable def documentLoss (rows : List (List ℝ × List Bool)) : ℝ :=
  (softmaxLoss rows).sum

/-! ### Antecedent scores (`get_antecedent_scores`, lines 424-495)

The feed-forward network (`custom_layers.ffnn`), the embedding tables,
dropout and the `distance_bins` native op are opaque collaborators,
abstracted as function parameters.  The `-inf` values produced by
`tf.log(tf.sequence_mask(...))` are embedded in `EReal` (`⊥`), where
adding any real number to `⊥` keeps `⊥`, as in IEEE arithmetic. -/

/-- `tf.log` of one boolean mask entry: `log 1 = 0`, `log 0 = -inf`. -/
noncomputable def maskLog (b : Bool) : EReal := if b then 0 else ⊥

/-- The parameters and collaborators of `get_antecedent_scores`. -/
structure AntecedentScoringCtx where
  use_metadata : Bool
  use_features : Bool
  mention_emb : Nat → List ℝ
  mention_scores : Nat → ℝ
  mention_speaker_ids : Nat → Nat
  genre_emb : List ℝ
  sameSpeakerEmb : Bool → List ℝ
  distBins : Int → Nat
  distEmb : Nat → List ℝ
  dropoutF : List ℝ → List ℝ
  ffnn : List ℝ → ℝ

/-- The feature embedding for target mention `i` and its `j`-th candidate
`a` (lines 443-469): same-speaker embedding and tiled genre embedding
when `use_metadata`, distance-bucket embedding of `i - antecedents[i,j]`
when `use_features`, concatenated then passed through dropout. -/
noncomputable def featureEmb (ctx : AntecedentScoringCtx) (i a : Nat) : List ℝ :=
  ctx.dropoutF
    ((if ctx.use_metadata then
        ctx.sameSpeakerEmb (ctx.mention_speaker_ids i == ctx.mention_speaker_ids a)
          ++ ctx.genre_emb
      else []) ++
     (if ctx.use_features then
        ctx.distEmb (ctx.distBins ((i : Int) - (a : Int)))
      else []))

/-- `pair_emb = concat([target_emb_tiled, antecedent_emb, similarity_emb,
feature_emb])` (lines 471-477), where `similarity_emb` is the elementwise
product `antecedent_emb * target_emb_tiled`. -/
noncomputable def pairEmb (ctx : AntecedentScoringCtx) (i a : Nat) : List ℝ :=
  ctx.mention_emb i ++ ctx.mention_emb a ++
    (List.zipWith (· * ·) (ctx.mention_emb a) (ctx.mention_emb i)) ++
    featureEmb ctx i a

/-- One row of `get_antecedent_scores` for target mention `i` with
candidate row `arow` and actual candidate count `alen`, following the
source order of operations: feed-forward output, `+ log(sequence_mask)`,
`+ mention_scores[i] + mention_scores[antecedents[i,j]]`, then a constant
zero column prepended. -/
noncomputable def antecedentScoresRow (ctx : AntecedentScoringCtx) (i : Nat)
    (arow : List Nat) (alen : Nat) : List EReal :=
  (0 : EReal) ::
    arow.enum.map (fun p =>
      (((ctx.ffnn (pairEmb ctx i p.2) : ℝ) : EReal) + maskLog (p.1 < alen)) +
        (((ctx.mention_scores i + ctx.mention_scores p.2 : ℝ) : EReal)))

/-- Embedding of `CorefModel.get_antecedent_scores`: one score row per
mention. -/
noncomputable def getAntecedentScores (ctx : AntecedentScoringCtx)
    (antecedents : List (List Nat)) (antecedents_len : List Nat) :
    List (List EReal) :=
  antecedents.enum.map (fun p =>
    antecedentScoresRow ctx p.1 p.2 (antecedents_len.getD p.1 0))

/-! ### Derived / specification-side definitions -/

/-- The gold-labelled scores of a row (specification-side reading of
"log-sum-exp over the gold-labeled scores"). -/
def goldScores (scores : List ℝ) (labels : List Bool) : List ℝ :=
  (scores.zip labels).filterMap (fun p => if p.2 then some p.1 else none)

/-- The inference decode as run by `CorefModel.__call__` (lines 793-796):
`get_predicted_antecedents` followed by `get_predicted_clusters`. -/
def runDecode {α : Type} [LinearOrder α]
    (antecedents : List (List Int)) (antecedent_scores : List (List α))
    (starts ends : List Int) :
    Option (List (List Span) × List (Span × List Span)) :=
  match getPredictedAntecedents antecedents antecedent_scores with
  | some pa => getPredictedClusters starts ends pa
  | none => none

/-- A concrete antecedent-scoring context (zero network, empty
embeddings), used to instantiate universally quantified statements. -/
noncomputable def trivialCtx : AntecedentScoringCtx :=
  { use_metadata := false
    use_features := false
    mention_emb := fun _ => []
    mention_scores := fun _ => 0
    mention_speaker_ids := fun _ => 0
    genre_emb := []
    sameSpeakerEmb := fun _ => []
    distBins := fun _ => 0
    distEmb := fun _ => []
    dropoutF := id
    ffnn := fun _ => 0 }

/-! ## Theorems -/

/-! ### Dictionary lemmas -/

theorem dictLookup_insert_self {κ β : Type} [DecidableEq κ]
    (d : List (κ × β)) (k : κ) (v : β) :
    dictLookup (dictInsert d k v) k = some v := by
  induction d with
  | nil => simp [dictInsert, dictLookup]
  | cons kv rest ih =>
      by_cases h : kv.1 = k
      · simp [dictInsert, dictLookup, h]
      · simp [dictInsert, dictLookup, h, ih]

theorem dictLookup_insert_ne {κ β : Type} [DecidableEq κ]
    (d : List (κ × β)) (k k' : κ) (v : β) (h : k ≠ k') :
    dictLookup (dictInsert d k v) k' = dictLookup d k' := by
  induction d with
  | nil => simp [dictInsert, dictLookup, h]
  | cons kv rest ih =>
      by_cases hk : kv.1 = k
      · simp [dictInsert, dictLookup, hk, h]
      · simp [dictInsert, dictLookup, hk, ih]

/-! ### C10: CharConnector -/

/-- C10: `CharConnector.__call__` returns a list of the same length as
the input batch whose `i`-th element is the in-order concatenation of the
characters of the `i`-th input sequence; an empty sequence yields the
empty string and an empty batch yields the empty list. -/
theorem C10_charConnector_spec (batch : List (List String)) :
    (charConnector batch).length = batch.length ∧
    (∀ i : Nat, (charConnector batch).get? i =
      (batch.get? i).map (fun sample => String.join sample)) ∧
    charConnector [] = [] ∧
    String.join [] = "" := by
  refine ⟨by simp [charConnector], fun i => ?_, rfl, rfl⟩
  simp [charConnector, List.get?_eq_getElem?, List.getElem?_map]

/-! ### C9: embedding-format validation -/

/-- C9: construction succeeds exactly for the two supported
`emb_format` values; for any other value it fails with the configuration
error, and the failure does not depend on (and does not run) the
graph/session construction. -/
theorem C9_emb_format_validation (emb_format : String) :
    (∀ {σ : Type} (build : Unit → σ),
      (corefInit emb_format build).isOk = true ↔
        (emb_format = "std_emb" ∨ emb_format = "cached")) ∧
    (emb_format ≠ "std_emb" → emb_format ≠ "cached" →
      ∀ {σ : Type} (b₁ b₂ : Unit → σ),
        corefInit emb_format b₁ = corefInit emb_format b₂ ∧
        corefInit emb_format b₁ =
          Except.error "Embedding format must be std_emb or cached") := by
  constructor
  · intro σ build
    by_cases h : emb_format = "std_emb" ∨ emb_format = "cached"
    · simp [corefInit, h, Except.isOk, Except.toBool]
    · simp only [corefInit, h, if_false, iff_false]
      intro hc
      · simp [Except.isOk, Except.toBool] at hc
  · intro h1 h2 σ b₁ b₂
    have h : ¬ (emb_format = "std_emb" ∨ emb_format = "cached") := by tauto
    simp [corefInit, h]

/-- Witness for C9 at the unsupported value `"word2vec"` and the two
supported values. -/
theorem C9_emb_format_validation_witness :
    corefInit "word2vec" (fun _ => (0 : Nat)) =
      corefInit "word2vec" (fun _ => (1 : Nat)) ∧
    (corefInit "word2vec" (fun _ => (0 : Nat))).isOk = false ∧
    (corefInit "std_emb" (fun _ => (0 : Nat))).isOk = true ∧
    (corefInit "cached" (fun _ => (0 : Nat))).isOk = true := by
  refine ⟨((C9_emb_format_validation "word2vec").2 (by decide) (by decide)
    (fun _ => 0) (fun _ => 1)).1, ?_, ?_, ?_⟩
  · have h := (C9_emb_format_validation "word2vec").1 (fun _ => (0 : Nat))
    simp only [show ¬ ("word2vec" = "std_emb" ∨ "word2vec" = "cached") by decide,
      iff_false] at h
    exact Bool.eq_false_iff.mpr (fun hc => h hc)
  · exact ((C9_emb_format_validation "std_emb").1 (fun _ => (0 : Nat))).mpr
      (Or.inl rfl)
  · exact ((C9_emb_format_validation "cached").1 (fun _ => (0 : Nat))).mpr
      (Or.inr rfl)

/-! ### C7: the decode is deterministic -/

/-- C7: running `get_predicted_antecedents` followed by
`get_predicted_clusters` twice on the same antecedent matrix, score
matrix and mention arrays yields identical predicted clusterings and
identical mention-to-cluster mappings: the decode is a pure function of
its tensor inputs. -/
theorem C7_decode_deterministic {α : Type} [LinearOrder α]
    (antecedents : List (List Int)) (antecedent_scores : List (List α))
    (starts ends : List Int) :
    runDecode antecedents antecedent_scores starts ends =
      runDecode antecedents antecedent_scores starts ends := rfl

/-! ### C3: cluster-id construction -/

/-- C3 counterevidence: for the document with the single gold cluster
`[[(0,0),(2,2)]]`, `tensorize_example` builds `cluster_ids = [0, 0]`
(because `enumerate(clusters)` starts at 0), so both mentions of the
first real gold cluster receive cluster id 0 — the id the specification
reserves for mentions in no gold cluster. -/
theorem C3_first_cluster_gets_id_zero :
    clusterIds [[((0 : Int), (0 : Int)), ((2 : Int), (2 : Int))]] = [0, 0] ∧
    ((0 : Int), (0 : Int)) ∈
      ([[((0 : Int), (0 : Int)), ((2 : Int), (2 : Int))]] :
        List (List Span)).flatten := by
  decide

/-! ### C8: train-on-gold mention selection -/

/-- C8: with `train_on_gold` enabled the retained mention set is exactly
the gold spans with every mention score equal to 1, and for the document
with gold clusters `[[(0,0),(2,2)]]` the mention set is exactly
`{(0,0),(2,2)}`. -/
theorem C8_train_on_gold_selection :
    (∀ gold_starts gold_ends : List Int,
      trainOnGoldSelection gold_starts gold_ends =
        { mention_starts := gold_starts
          mention_ends := gold_ends
          mention_scores := List.replicate gold_ends.length 1 }) ∧
    (let p := tensorizeMentions
      (goldMentions [[((0 : Int), (0 : Int)), ((2 : Int), (2 : Int))]])
     trainOnGoldSelection p.1 p.2 =
        { mention_starts := [0, 2]
          mention_ends := [0, 2]
          mention_scores := [1, 1] } ∧
     p.1.zip p.2 = [((0 : Int), (0 : Int)), ((2 : Int), (2 : Int))]) := by
  refine ⟨fun gold_starts gold_ends => rfl, ?_, ?_⟩ <;> decide

/-! ### C5: softmax loss -/

/-- The masked exponential sum over a row equals the plain exponential
sum over the gold-labelled scores. -/
theorem goldExpSum_eq_sumExp_goldScores :
    ∀ (scores : List ℝ) (labels : List Bool),
      goldExpSum scores labels = sumExp (goldScores scores labels)
  | [], _ => by simp [goldExpSum, goldScores, sumExp]
  | _ :: _, [] => by simp [goldExpSum, goldScores, sumExp]
  | s :: ss, l :: ls => by
      have ih := goldExpSum_eq_sumExp_goldScores ss ls
      simp only [goldExpSum, goldScores, sumExp] at ih ⊢
      cases l <;> simp [ih]

/-- C5: for a score row with at least one gold label, the per-mention
loss of `softmax_loss` is the log-sum-exp of all scores minus the
log-sum-exp of the gold-labelled scores, and the document loss of
`get_predictions_and_loss` is the sum of the per-mention losses. -/
theorem C5_softmax_loss (scores : List ℝ) (labels : List Bool)
    (hgold : true ∈ labels) :
    softmaxLossRow scores labels =
      Real.log (sumExp scores) -
        Real.log (sumExp (goldScores scores labels)) ∧
    ∀ rows : List (List ℝ × List Bool),
      documentLoss rows =
        (rows.map (fun r => softmaxLossRow r.1 r.2)).sum := by
  refine ⟨?_, fun rows => rfl⟩
  rw [softmaxLossRow, goldExpSum_eq_sumExp_goldScores]

/-- Witness for C5 on the row `[1, 2]` with gold label on the second
score. -/
theorem C5_softmax_loss_witness :
    true ∈ [false, true] ∧
    softmaxLossRow [1, 2] [false, true] =
      Real.log (sumExp [1, 2]) -
        Real.log (sumExp (goldScores [1, 2] [false, true])) :=
  ⟨by decide, (C5_softmax_loss [1, 2] [false, true] (by decide)).1⟩

/-! ### C6: antecedent score rows -/

/-- C6: each antecedent-score row has width `max_antecedents + 1`, starts
with the constant (unmasked) zero score for the "no antecedent" option,
and its entry for candidate `j` is the feed-forward output on the
concatenated pair embedding plus the target and candidate mention scores
when `j` is within the actual candidate count, and `-∞` (bottom) beyond
it — the `log(sequence_mask)` term absorbs the later mention-score
additions. -/
theorem C6_antecedent_score_row (ctx : AntecedentScoringCtx)
    (antecedents : List (List Nat)) (antecedents_len : List Nat)
    (i : Nat) (arow : List Nat) (alen : Nat)
    (hrow : antecedents.get? i = some arow)
    (hlen : antecedents_len.get? i = some alen) :
    (getAntecedentScores ctx antecedents antecedents_len).get? i =
      some (antecedentScoresRow ctx i arow alen) ∧
    (antecedentScoresRow ctx i arow alen).length = arow.length + 1 ∧
    (antecedentScoresRow ctx i arow alen).get? 0 = some 0 ∧
    ∀ j a, arow.get? j = some a →
      (j < alen →
        (antecedentScoresRow ctx i arow alen).get? (j + 1) =
          some (((ctx.ffnn (pairEmb ctx i a) + ctx.mention_scores i +
            ctx.mention_scores a : ℝ) : EReal))) ∧
      (alen ≤ j →
        (antecedentScoresRow ctx i arow alen).get? (j + 1) = some ⊥) := by
  refine ⟨?_, ?_, rfl, ?_⟩
  · have hD : antecedents_len.getD i 0 = alen := by
      simp [List.getD, List.get?_eq_getElem?] at hlen ⊢
      simp [hlen]
    simp [getAntecedentScores, List.get?_eq_getElem?, List.getElem?_enum,
      List.getElem?_map]
    simp [List.get?_eq_getElem?] at hrow
    simp [hrow, ← hD, List.getD, List.get?_eq_getElem?]
  · simp [antecedentScoresRow]
  · intro j a ha
    have hget : (antecedentScoresRow ctx i arow alen).get? (j + 1) =
        some ((((ctx.ffnn (pairEmb ctx i a) : ℝ) : EReal) +
          maskLog (decide (j < alen))) +
          ((ctx.mention_scores i + ctx.mention_scores a : ℝ) : EReal)) := by
      simp [antecedentScoresRow, List.get?_eq_getElem?, List.getElem?_map,
        List.getElem?_enum]
      simp [List.get?_eq_getElem?] at ha
      simp [ha]
    constructor
    · intro hj
      rw [hget]
      have : maskLog (decide (j < alen)) = 0 := by simp [maskLog, hj]
      rw [this, add_zero, ← EReal.coe_add, add_assoc]
    · intro hj
      rw [hget]
      have : maskLog (decide (j < alen)) = ⊥ := by
        simp [maskLog, Nat.not_lt.mpr hj]
      rw [this, EReal.add_bot, EReal.bot_add]

/-- Witness for C6 with the trivial scoring context, one mention with a
single candidate and candidate count 1. -/
theorem C6_antecedent_score_row_witness :
    ([[0]] : List (List Nat)).get? 0 = some [0] ∧
    ([1] : List Nat).get? 0 = some 1 ∧
    (antecedentScoresRow trivialCtx 0 [0] 1).length = 1 + 1 :=
  ⟨rfl, rfl,
    (C6_antecedent_score_row trivialCtx [[0]] [1] 0 [0] 1 rfl rfl).2.1⟩

/-! ### C4: truncation of long training documents -/

/-- numpy masking of the first array by a mask computed elementwise from
two zipped arrays: it keeps exactly the first components of the zipped
pairs satisfying the predicate. -/
theorem applyMask_zip_fst {β γ : Type} (kp : β × γ → Bool) :
    ∀ (l₁ : List β) (l₂ : List γ), l₁.length = l₂.length →
      applyMask l₁ ((l₁.zip l₂).map kp) =
        ((l₁.zip l₂).filter kp).map Prod.fst
  | [], _, _ => by simp [applyMask]
  | b :: bs, [], h => by simp at h
  | b :: bs, c :: cs, h => by
      have ih := applyMask_zip_fst kp bs cs (by simpa using h)
      by_cases hk : kp (b, c) <;>
        simp [applyMask, List.filter_cons, hk] at ih ⊢ <;> simp [ih]

/-- As `applyMask_zip_fst`, for the second array. -/
theorem applyMask_zip_snd {β γ : Type} (kp : β × γ → Bool) :
    ∀ (l₁ : List β) (l₂ : List γ), l₁.length = l₂.length →
      applyMask l₂ ((l₁.zip l₂).map kp) =
        ((l₁.zip l₂).filter kp).map Prod.snd
  | [], [], _ => by simp [applyMask]
  | [], c :: cs, h => by simp at h
  | b :: bs, [], h => by simp at h
  | b :: bs, c :: cs, h => by
      have ih := applyMask_zip_snd kp bs cs (by simpa using h)
      by_cases hk : kp (b, c) <;>
        simp [applyMask, List.filter_cons, hk] at ih ⊢ <;> simp [ih]

/-- numpy masking of a third, parallel array by a mask computed from two
zipped arrays: it keeps exactly the entries whose corresponding pair
satisfies the predicate. -/
theorem applyMask_zip_para {β γ δ : Type} (kp : β × γ → Bool) :
    ∀ (l₁ : List β) (l₂ : List γ) (l₃ : List δ),
      l₁.length = l₂.length → l₃.length = l₁.length →
      applyMask l₃ ((l₁.zip l₂).map kp) =
        (((l₁.zip l₂).zip l₃).filter (fun q => kp q.1)).map Prod.snd
  | [], _, [], _, _ => by simp [applyMask]
  | [], _, d :: ds, _, h₂ => by simp at h₂
  | b :: bs, [], _, h₁, _ => by simp at h₁
  | b :: bs, c :: cs, [], h₁, h₂ => by simp at h₂
  | b :: bs, c :: cs, d :: ds, h₁, h₂ => by
      have ih := applyMask_zip_para kp bs cs ds (by simpa using h₁)
        (by simpa using h₂)
      by_cases hk : kp (b, c) <;>
        simp [applyMask, List.filter_cons, hk] at ih ⊢ <;> simp [ih]

/-- C4: `tensorize_example` dispatches to `truncate_example` exactly when
`is_training` holds and the sentence count exceeds the configured cap,
and for any input with `N` sentences, cap `maxTS < N` and window offset
`offset ≤ N - maxTS` (the range of `random.randint`), `truncate_example`
returns exactly `maxTS` contiguous sentences starting at `offset`; a gold
span is kept, with start, end and cluster id re-offset/retained, iff it
overlaps the retained word window, and is dropped (cluster id alongside)
otherwise. -/
theorem C4_truncation {W C : Type} (maxTS offset : Nat)
    (emb_lowercase : Bool) (lc : String → String)
    (embed : List (List String) → List W)
    (charIndex : List (List String) → List C)
    (speakerDict : String → Nat) (genreOf : String → Nat)
    (sentences : List (List String)) (speakers : List String)
    (doc_key : String) (clusters : List (List Span)) (is_training : Bool)
    (t : TensorizedExample W C)
    (hsp : (((if emb_lowercase then sentences.map (List.map lc)
        else sentences)).map List.length).sum = speakers.length)
    (hN : maxTS < t.word_emb.length)
    (hoff : offset + maxTS ≤ t.word_emb.length)
    (hpar : t.text_len.length = t.word_emb.length)
    (hge : t.gold_starts.length = t.gold_ends.length)
    (hci : t.cluster_ids.length = t.gold_starts.length) :
    ((is_training = true ∧
        (if emb_lowercase then sentences.map (List.map lc)
          else sentences).length > maxTS) →
      tensorizeExample maxTS offset emb_lowercase lc embed charIndex
          speakerDict genreOf sentences speakers doc_key clusters
          is_training =
        truncateExample maxTS offset
          (rawTensorized embed charIndex speakerDict genreOf
            (if emb_lowercase then sentences.map (List.map lc)
              else sentences) speakers doc_key clusters is_training)) ∧
    (¬ (is_training = true ∧
        (if emb_lowercase then sentences.map (List.map lc)
          else sentences).length > maxTS) →
      tensorizeExample maxTS offset emb_lowercase lc embed charIndex
          speakerDict genreOf sentences speakers doc_key clusters
          is_training =
        some (rawTensorized embed charIndex speakerDict genreOf
          (if emb_lowercase then sentences.map (List.map lc)
            else sentences) speakers doc_key clusters is_training)) ∧
    (∃ t', truncateExample maxTS offset t = some t' ∧
      t'.word_emb = (t.word_emb.drop offset).take maxTS ∧
      t'.text_len = (t.text_len.drop offset).take maxTS ∧
      t'.text_len.length = maxTS ∧
      (let wOff : Nat := (t.text_len.take offset).sum
       let nw : Nat := ((t.text_len.drop offset).take maxTS).sum
       let kp : Span → Bool := fun p =>
         decide ((wOff : Int) ≤ p.2) &&
           decide (p.1 < (wOff : Int) + (nw : Int))
       t'.gold_starts = ((t.gold_starts.zip t.gold_ends).filter kp).map
           (fun p => p.1 - (wOff : Int)) ∧
       t'.gold_ends = ((t.gold_starts.zip t.gold_ends).filter kp).map
           (fun p => p.2 - (wOff : Int)) ∧
       t'.cluster_ids =
         (((t.gold_starts.zip t.gold_ends).zip t.cluster_ids).filter
           (fun q => kp q.1)).map Prod.snd)) := by
  refine ⟨?_, ?_, ?_⟩
  · intro h
    simp only [tensorizeExample, hsp, if_pos rfl]
    rw [if_pos h]
    simp
  · intro h
    simp only [tensorizeExample, hsp, if_pos rfl]
    rw [if_neg h]
    simp
  · refine ⟨_, by rw [truncateExample, if_pos hN], rfl, rfl, ?_, ?_, ?_, ?_⟩
    · simp only [List.length_take, List.length_drop, hpar]
      omega
    · rw [applyMask_zip_fst _ _ _ hge, List.map_map]
      rfl
    · rw [applyMask_zip_snd _ _ _ hge, List.map_map]
      rfl
    · rw [applyMask_zip_para _ _ _ _ hge hci]

/-- Witness for C4: a 3-sentence document with cap 2, offset 1,
sentence lengths `[2, 1, 3]` and three gold spans of which the first is
dropped and the others are re-offset by the 2-word window start. -/
theorem C4_truncation_witness :
    ((([["a", "b"], ["c"], ["d", "e", "f"]] :
        List (List String)).map List.length).sum =
      (["s1", "s2", "s3", "s4", "s5", "s6"] : List String).length) ∧
    (∃ t', truncateExample 2 1
        ({ word_emb := [10, 20, 30]
           char_index := [1, 2, 3]
           text_len := [2, 1, 3]
           speaker_ids := [0, 1, 2, 3, 4, 5]
           genre := 0
           is_training := true
           gold_starts := [0, 2, 4]
           gold_ends := [1, 2, 5]
           cluster_ids := [1, 2, 3] } : TensorizedExample Nat Nat) =
        some t' ∧
      t'.word_emb = [20, 30] ∧ t'.text_len = [1, 3] ∧
      t'.text_len.length = 2 ∧
      t'.gold_starts = [0, 2] ∧ t'.gold_ends = [0, 3] ∧
      t'.cluster_ids = [2, 3]) := by
  have h := C4_truncation (W := Nat) (C := Nat) 2 1 false id
    (fun _ => []) (fun _ => []) (fun _ => 0) (fun _ => 0)
    [["a", "b"], ["c"], ["d", "e", "f"]]
    ["s1", "s2", "s3", "s4", "s5", "s6"] "bc" []
    true
    { word_emb := [10, 20, 30]
      char_index := [1, 2, 3]
      text_len := [2, 1, 3]
      speaker_ids := [0, 1, 2, 3, 4, 5]
      genre := 0
      is_training := true
      gold_starts := [0, 2, 4]
      gold_ends := [1, 2, 5]
      cluster_ids := [1, 2, 3] }
    (by decide) (by decide) (by decide) (by decide) (by decide) (by decide)
  refine ⟨by decide, ?_⟩
  obtain ⟨t', ht, hwe, htl, hlen, hgs, hgeq, hcid⟩ := h.2.2
  exact ⟨t', ht, by simpa using hwe, by simpa using htl, by simpa using hlen,
    by simpa using hgs, by simpa using hgeq, by simpa using hcid⟩

/-! ### C1: predicted antecedents point strictly backwards and the
decode assertion never fails -/

/-- Row-indexed specification of the `get_predicted_antecedents` loop:
if every candidate row contains only indices below its (shifted) row
index, every prediction is `-1` or below its row index. -/
theorem gpaLoop_spec {α : Type} [LinearOrder α] :
    ∀ (l : List (List Int × List α)) (k : Nat) (pa : List Int),
      gpaLoop k l = some pa →
      (∀ j arow srow, l.get? j = some (arow, srow) →
        ∀ a ∈ arow, a < ((k : Int) + (j : Int))) →
      pa.length = l.length ∧
      (∀ j x, pa.get? j = some x → x = -1 ∨ x < ((k : Int) + (j : Int)))
  | [], k, pa, hpa, _ => by
      simp [gpaLoop] at hpa
      subst hpa
      simp
  | (arow, srow) :: rest, k, pa, hpa, h => by
      rw [gpaLoop] at hpa
      cases hr : gpaRow arow srow with
      | none => rw [hr] at hpa; exact absurd hpa (by simp)
      | some x =>
          rw [hr] at hpa
          cases hl : gpaLoop (k + 1) rest with
          | none => rw [hl] at hpa; exact absurd hpa (by simp)
          | some xs =>
              rw [hl] at hpa
              simp only [Option.some.injEq] at hpa
              subst hpa
              have ih := gpaLoop_spec rest (k + 1) xs hl (by
                intro j arow' srow' hj a ha
                have hsh := h (j + 1) arow' srow' (by simpa using hj) a ha
                omega)
              refine ⟨by simp [ih.1], ?_⟩
              intro j x' hx
              cases j with
              | zero =>
                  have hxx : x = x' := by simpa using hx
                  subst hxx
                  rw [gpaRow] at hr
                  by_cases hidx : argmaxIdx srow = 0
                  · rw [if_pos hidx] at hr
                    simp only [Option.some.injEq] at hr
                    left
                    omega
                  · rw [if_neg hidx] at hr
                    right
                    have hmem : x ∈ arow := List.get?_mem hr
                    have := h 0 arow srow rfl x hmem
                    omega
              | succ j =>
                  rcases ih.2 j x' (by simpa using hx) with h1 | h1
                  · exact Or.inl h1
                  · right
                    omega

/-- `spanAt` succeeds on in-range indices. -/
theorem spanAt_eq_some (starts ends : List Int) (i : Nat)
    (h1 : i < starts.length) (h2 : i < ends.length) :
    ∃ v, spanAt starts ends i = some v := by
  rw [spanAt, List.get?_eq_get h1, List.get?_eq_get h2]
  exact ⟨_, rfl⟩

/-- One decoding step succeeds when the prediction is negative or a valid
strictly-earlier in-range index. -/
theorem gpcStep_isSome (starts ends : List Int) (i : Nat) (pidx : Int)
    (st : ClusterState)
    (h : pidx < 0 ∨ (0 ≤ pidx ∧ pidx < (i : Int) ∧
      pidx.toNat < starts.length ∧ pidx.toNat < ends.length ∧
      i < starts.length ∧ i < ends.length)) :
    (gpcStep starts ends i pidx st).isSome = true := by
  rcases h with h | ⟨h0, h1, h2, h3, h4, h5⟩
  · simp [gpcStep, h]
  · obtain ⟨ant, hant⟩ := spanAt_eq_some starts ends pidx.toNat h2 h3
    obtain ⟨m, hm⟩ := spanAt_eq_some starts ends i h4 h5
    rw [gpcStep, if_neg (by omega), if_pos h1, hant, hm]
    rfl

/-- The clustering loop succeeds (no assertion failure, no index error)
whenever every remaining prediction is `-1` or strictly below its mention
index and the mention arrays are long enough. -/
theorem gpcLoop_total (starts ends : List Int) :
    ∀ (rest : List Int) (k : Nat) (st : ClusterState),
      (∀ j x, rest.get? j = some x → x = -1 ∨ x < ((k : Int) + (j : Int))) →
      k + rest.length ≤ starts.length →
      k + rest.length ≤ ends.length →
      (gpcLoop starts ends k rest st).isSome = true
  | [], _, _, _, _, _ => by simp [gpcLoop]
  | p :: rest, k, st, h, hs, he => by
      have hlen1 : k + rest.length + 1 ≤ starts.length := by
        simp only [List.length_cons] at hs
        omega
      have hlen2 : k + rest.length + 1 ≤ ends.length := by
        simp only [List.length_cons] at he
        omega
      have hstep : (gpcStep starts ends k p st).isSome = true := by
        apply gpcStep_isSome
        rcases h 0 p rfl with h0 | h0
        · left; omega
        · by_cases hneg : p < 0
          · exact Or.inl hneg
          · right
            push_neg at hneg
            have hki : p < (k : Int) := by simpa using h0
            refine ⟨hneg, hki, by omega, by omega, by omega, by omega⟩
      rw [gpcLoop]
      cases hst' : gpcStep starts ends k p st with
      | none => rw [hst'] at hstep; exact absurd hstep (by simp)
      | some st' =>
          exact gpcLoop_total starts ends rest (k + 1) st'
            (by
              intro j x hj
              rcases h (j + 1) x (by simpa using hj) with h1 | h1
              · exact Or.inl h1
              · right; omega)
            (by omega) (by omega)

/-- C1: if every row `i` of the antecedents matrix contains only indices
strictly below `i`, then every antecedent predicted by
`get_predicted_antecedents` for mention `i` is `-1` or strictly below
`i`, and `get_predicted_clusters` runs to completion: the
`assert i > predicted_index` statement never fails and no cyclic
assignment is possible. -/
theorem C1_decode_acyclic {α : Type} [LinearOrder α]
    (antecedents : List (List Int)) (antecedent_scores : List (List α))
    (starts ends : List Int) (pa : List Int)
    (hpa : getPredictedAntecedents antecedents antecedent_scores = some pa)
    (hrows : ∀ i, i < antecedents.length →
      ∀ a ∈ antecedents.getD i [], a < (i : Int))
    (hs : pa.length ≤ starts.length) (he : pa.length ≤ ends.length) :
    (∀ i x, pa.get? i = some x → x = -1 ∨ x < (i : Int)) ∧
    (getPredictedClusters starts ends pa).isSome = true := by
  have hzip : ∀ j arow srow,
      (antecedents.zip antecedent_scores).get? j = some (arow, srow) →
      ∀ a ∈ arow, a < ((0 : Int) + (j : Int)) := by
    intro j arow srow hj a ha
    rw [List.get?_eq_getElem?, List.getElem?_zip_eq_some] at hj
    obtain ⟨h1, _⟩ := hj
    have hlt : j < antecedents.length := by
      by_contra hge
      rw [List.getElem?_eq_none (by omega)] at h1
      exact absurd h1 (by simp)
    have hD : antecedents.getD j [] = arow := by
      simp [List.getD_eq_getElem?_getD, h1]
    have := hrows j hlt a (hD ▸ ha)
    omega
  have hspec := gpaLoop_spec (antecedents.zip antecedent_scores) 0 pa hpa hzip
  have hpts : ∀ i x, pa.get? i = some x → x = -1 ∨ x < (i : Int) := by
    intro i x hx
    rcases hspec.2 i x hx with h1 | h1
    · exact Or.inl h1
    · right; omega
  refine ⟨hpts, ?_⟩
  rw [getPredictedClusters]
  have htot := gpcLoop_total starts ends pa 0 ⟨[], []⟩
    (by
      intro j x hj
      rcases hpts j x hj with h1 | h1
      · exact Or.inl h1
      · right; omega)
    (by simpa using hs) (by simpa using he)
  cases hloop : gpcLoop starts ends 0 pa ⟨[], []⟩ with
  | none => rw [hloop] at htot; exact absurd htot (by simp)
  | some st => simp

/-- Witness for C1 on two mentions, the second preferring the first as
antecedent. -/
theorem C1_decode_acyclic_witness :
    getPredictedAntecedents [[], [0]]
        ([[2, 1], [1, 5]] : List (List Int)) = some [-1, 0] ∧
    (∀ i x, ([-1, 0] : List Int).get? i = some x →
      x = -1 ∨ x < (i : Int)) ∧
    (getPredictedClusters [0, 2] [0, 2] [-1, 0]).isSome = true := by
  have h := C1_decode_acyclic [[], [0]] ([[2, 1], [1, 5]] : List (List Int))
    [0, 2] [0, 2] [-1, 0] (by decide) (by decide) (by decide) (by decide)
  exact ⟨by decide, h.1, h.2⟩

/-! ### C2: every decoded mention lies in exactly one cluster -/

theorem length_appendAt {β : Type} (x : β) :
    ∀ (cls : List (List β)) (c : Nat), (appendAt cls c x).length = cls.length
  | [], _ => rfl
  | cl :: cls, 0 => by simp [appendAt]
  | cl :: cls, c + 1 => by simp [appendAt, length_appendAt x cls c]

theorem getD_appendAt_self {β : Type} (x : β) :
    ∀ (cls : List (List β)) (c : Nat), c < cls.length →
      (appendAt cls c x).getD c [] = cls.getD c [] ++ [x]
  | [], c, hc => by simp at hc
  | cl :: cls, 0, _ => by simp [appendAt]
  | cl :: cls, c + 1, hc => by
      simp only [appendAt, List.getD_cons_succ]
      exact getD_appendAt_self x cls c (by simpa using hc)

theorem getD_appendAt_ne {β : Type} (x : β) :
    ∀ (cls : List (List β)) (c c' : Nat), c' ≠ c →
      (appendAt cls c x).getD c' [] = cls.getD c' []
  | [], _, _, _ => by simp [appendAt]
  | cl :: cls, 0, 0, h => absurd rfl h
  | cl :: cls, 0, c' + 1, _ => by simp [appendAt, List.getD_cons_succ]
  | cl :: cls, c + 1, 0, _ => by simp [appendAt]
  | cl :: cls, c + 1, c' + 1, h => by
      simp only [appendAt, List.getD_cons_succ]
      exact getD_appendAt_ne x cls c c' (by omega)

theorem countP_appendAt (m x : Span) :
    ∀ (cls : List (List Span)) (c : Nat), c < cls.length →
      (appendAt cls c x).countP (fun cl => decide (m ∈ cl)) =
        cls.countP (fun cl => decide (m ∈ cl)) +
          (if m = x ∧ m ∉ cls.getD c [] then 1 else 0)
  | [], c, hc => by simp at hc
  | cl :: cls, 0, _ => by
      by_cases hmx : m = x
      · subst hmx
        by_cases hm : m ∈ cl <;> simp [appendAt, List.countP_cons, hm]
      · by_cases hm : m ∈ cl <;>
          simp [appendAt, List.countP_cons, hm, hmx]
  | cl :: cls, c + 1, hc => by
      have ih := countP_appendAt m x cls c (by simpa using hc)
      simp only [appendAt, List.countP_cons, List.getD_cons_succ, ih]
      omega

theorem appendAt_concat {β : Type} (x : β) :
    ∀ (cls : List (List β)) (l : List β),
      appendAt (cls ++ [l]) cls.length x = cls ++ [l ++ [x]]
  | [], l => rfl
  | cl :: cls, l => by
      show cl :: appendAt (cls ++ [l]) cls.length x = cl :: (cls ++ [l ++ [x]])
      rw [appendAt_concat x cls l]

theorem mem_getD_lt {β : Type} {m : β} (cls : List (List β)) (c : Nat)
    (h : m ∈ cls.getD c []) : c < cls.length := by
  by_contra hge
  rw [List.getD_eq_default _ _ (by omega)] at h
  exact absurd h (List.not_mem_nil m)

theorem countP_pos_of_mem_getD (m : Span) (cls : List (List Span)) (c : Nat)
    (h : m ∈ cls.getD c []) :
    0 < cls.countP (fun cl => decide (m ∈ cl)) := by
  have hc := mem_getD_lt cls c h
  rw [List.countP_pos_iff]
  refine ⟨cls.getD c [], ?_, by simpa using h⟩
  rw [List.getD_eq_getElem _ _ hc]
  exact List.getElem_mem hc

theorem dictLookup_map_val {κ β γ : Type} [DecidableEq κ] (f : β → γ) :
    ∀ (d : List (κ × β)) (k : κ),
      dictLookup (d.map (fun kv => (kv.1, f kv.2))) k =
        (dictLookup d k).map f
  | [], _ => rfl
  | kv :: rest, k => by
      by_cases h : kv.1 = k <;>
        simp [dictLookup, h, dictLookup_map_val f rest k]

theorem decodeInv_mono (starts ends : List Int) (k k' : Nat)
    (st : ClusterState) (hkk : k ≤ k') (h : DecodeInv starts ends k st) :
    DecodeInv starts ends k' st := by
  refine ⟨h.1, h.2.1, ?_⟩
  intro m c hc
  obtain ⟨j, hj, hsp⟩ := h.2.2 m c hc
  exact ⟨j, by omega, hsp⟩

theorem decodeInv_init (starts ends : List Int) :
    DecodeInv starts ends 0 ⟨[], []⟩ := by
  refine ⟨?_, ?_, ?_⟩
  · intro m c hc
    simp [dictLookup] at hc
  · intro m _
    rfl
  · intro m c hc
    simp [dictLookup] at hc

/-- One decoding update preserves the invariant, only grows clusters, and
places the mention span in the same cluster as its antecedent span. -/
theorem gpcUpdate_inv (starts ends : List Int) (n k pT : Nat)
    (hinj : ∀ i, i < n → ∀ j, j < n →
      spanAt starts ends i = spanAt starts ends j → i = j)
    (hk : k < n) (hpT : pT < k)
    (st : ClusterState) (ant m : Span)
    (hant : spanAt starts ends pT = some ant)
    (hm : spanAt starts ends k = some m)
    (hinv : DecodeInv starts ends k st) :
    DecodeInv starts ends (k + 1) (gpcUpdate st ant m) ∧
    (∀ c, ∀ x ∈ st.clusters.getD c [],
      x ∈ (gpcUpdate st ant m).clusters.getD c []) ∧
    (∃ c, m ∈ (gpcUpdate st ant m).clusters.getD c [] ∧
      ant ∈ (gpcUpdate st ant m).clusters.getD c []) := by
  obtain ⟨hI1, hI2, hI3⟩ := hinv
  have hmkey : dictLookup st.m2p m = none := by
    cases hdl : dictLookup st.m2p m with
    | none => rfl
    | some c =>
        obtain ⟨j, hj, hsp⟩ := hI3 m c hdl
        have : j = k := hinj j (by omega) k hk (by rw [hsp, hm])
        omega
  have hmcount : st.clusters.countP (fun cl => decide (m ∈ cl)) = 0 :=
    hI2 m hmkey
  have hmnotin : ∀ c, m ∉ st.clusters.getD c [] := by
    intro c hc
    have := countP_pos_of_mem_getD m st.clusters c hc
    omega
  have hmant : m ≠ ant := by
    intro he
    have : pT = k := hinj pT (by omega) k hk (by rw [hant, hm, he])
    omega
  cases hdl : dictLookup st.m2p ant with
  | some c =>
      obtain ⟨hantmem, hantcount⟩ := hI1 ant c hdl
      have hclt : c < st.clusters.length := mem_getD_lt st.clusters c hantmem
      have hup : gpcUpdate st ant m =
          ⟨appendAt st.clusters c m, dictInsert st.m2p m c⟩ := by
        simp [gpcUpdate, hdl]
      rw [hup]
      refine ⟨⟨?_, ?_, ?_⟩, ?_, ?_⟩
      · intro m' c' hc'
        by_cases hmm : m = m'
        · subst hmm
          rw [dictLookup_insert_self] at hc'
          injection hc' with hc'
          subst hc'
          refine ⟨?_, ?_⟩
          · rw [getD_appendAt_self m st.clusters c hclt]
            simp
          · rw [countP_appendAt m m st.clusters c hclt,
              if_pos ⟨rfl, hmnotin c⟩, hmcount]
        · rw [dictLookup_insert_ne st.m2p m m' c hmm] at hc'
          obtain ⟨hmem', hcount'⟩ := hI1 m' c' hc'
          refine ⟨?_, ?_⟩
          · by_cases hcc : c' = c
            · subst hcc
              rw [getD_appendAt_self m st.clusters c' hclt]
              exact List.mem_append.mpr (Or.inl hmem')
            · rw [getD_appendAt_ne m st.clusters c c' hcc]
              exact hmem'
          · rw [countP_appendAt m' m st.clusters c hclt]
            simp [hcount', show ¬ (m' = m) from fun h => hmm h.symm]
      · intro m'' h''
        have hne : m'' ≠ m := by
          intro he
          subst he
          rw [dictLookup_insert_self] at h''
          exact absurd h'' (by simp)
        rw [dictLookup_insert_ne st.m2p m m'' c
          (fun h => hne h.symm)] at h''
        have h0 := hI2 m'' h''
        rw [countP_appendAt m'' m st.clusters c hclt]
        simp [h0, hne]
      · intro m' c' hc'
        by_cases hmm : m = m'
        · subst hmm
          exact ⟨k, by omega, hm⟩
        · rw [dictLookup_insert_ne st.m2p m m' c hmm] at hc'
          obtain ⟨j, hj, hsp⟩ := hI3 m' c' hc'
          exact ⟨j, by omega, hsp⟩
      · intro c' x hx
        by_cases hcc : c' = c
        · subst hcc
          rw [getD_appendAt_self m st.clusters c' hclt]
          exact List.mem_append.mpr (Or.inl hx)
        · rw [getD_appendAt_ne m st.clusters c c' hcc]
          exact hx
      · refine ⟨c, ?_, ?_⟩
        · rw [getD_appendAt_self m st.clusters c hclt]
          simp
        · rw [getD_appendAt_self m st.clusters c hclt]
          exact List.mem_append.mpr (Or.inl hantmem)
  | none =>
      have hantcount := hI2 ant hdl
      have hantnotin : ∀ c, ant ∉ st.clusters.getD c [] := by
        intro c hc
        have := countP_pos_of_mem_getD ant st.clusters c hc
        omega
      have hupc : (gpcUpdate st ant m).clusters =
          st.clusters ++ [[ant, m]] := by
        simp only [gpcUpdate, hdl]
        exact appendAt_concat m st.clusters [ant]
      have hupm : (gpcUpdate st ant m).m2p =
          dictInsert (dictInsert st.m2p ant st.clusters.length) m
            st.clusters.length := by
        simp only [gpcUpdate, hdl]
      have hgetL : (st.clusters ++ [[ant, m]]).getD st.clusters.length [] =
          [ant, m] := by
        rw [List.getD_append_right _ _ _ _ (le_refl _)]
        simp
      have hgetlt : ∀ c', c' < st.clusters.length →
          (st.clusters ++ [[ant, m]]).getD c' [] =
            st.clusters.getD c' [] := by
        intro c' hc'
        exact List.getD_append _ _ _ _ hc'
      have hcnt : ∀ m' : Span,
          (st.clusters ++ [[ant, m]]).countP (fun cl => decide (m' ∈ cl)) =
            st.clusters.countP (fun cl => decide (m' ∈ cl)) +
              (if m' ∈ ([ant, m] : List Span) then 1 else 0) := by
        intro m'
        rw [List.countP_append]
        congr 1
        by_cases hmem : m' ∈ ([ant, m] : List Span) <;>
          simp [List.countP_cons, hmem]
      refine ⟨⟨?_, ?_, ?_⟩, ?_, ?_⟩
      · intro m' c' hc'
        rw [hupc]
        rw [hupm] at hc'
        by_cases hmm : m = m'
        · subst hmm
          rw [dictLookup_insert_self] at hc'
          injection hc' with hc'
          subst hc'
          refine ⟨by rw [hgetL]; simp, ?_⟩
          rw [hcnt m]
          simp [hmcount]
        · rw [dictLookup_insert_ne _ _ _ _ hmm] at hc'
          by_cases hma : ant = m'
          · subst hma
            rw [dictLookup_insert_self] at hc'
            injection hc' with hc'
            subst hc'
            refine ⟨by rw [hgetL]; simp, ?_⟩
            rw [hcnt ant]
            simp [hantcount]
          · rw [dictLookup_insert_ne _ _ _ _ hma] at hc'
            obtain ⟨hmem', hcount'⟩ := hI1 m' c' hc'
            have hc'lt : c' < st.clusters.length :=
              mem_getD_lt st.clusters c' hmem'
            refine ⟨by rw [hgetlt c' hc'lt]; exact hmem', ?_⟩
            rw [hcnt m']
            have hnotin2 : m' ∉ ([ant, m] : List Span) := by
              simp
              exact ⟨fun h => hma h.symm, fun h => hmm h.symm⟩
            simp [hcount', hnotin2]
      · intro m'' h''
        rw [hupc]
        rw [hupm] at h''
        have hne1 : m'' ≠ m := by
          intro he
          subst he
          rw [dictLookup_insert_self] at h''
          exact absurd h'' (by simp)
        rw [dictLookup_insert_ne _ _ _ _ (fun h => hne1 h.symm)] at h''
        have hne2 : m'' ≠ ant := by
          intro he
          subst he
          rw [dictLookup_insert_self] at h''
          exact absurd h'' (by simp)
        rw [dictLookup_insert_ne _ _ _ _ (fun h => hne2 h.symm)] at h''
        have h0 := hI2 m'' h''
        rw [hcnt m'']
        have hnotin2 : m'' ∉ ([ant, m] : List Span) := by
          simp
          exact ⟨hne2, hne1⟩
        simp [h0, hnotin2]
      · intro m' c' hc'
        rw [hupm] at hc'
        by_cases hmm : m = m'
        · subst hmm
          exact ⟨k, by omega, hm⟩
        · rw [dictLookup_insert_ne _ _ _ _ hmm] at hc'
          by_cases hma : ant = m'
          · subst hma
            exact ⟨pT, by omega, hant⟩
          · rw [dictLookup_insert_ne _ _ _ _ hma] at hc'
            obtain ⟨j, hj, hsp⟩ := hI3 m' c' hc'
            exact ⟨j, by omega, hsp⟩
      · intro c' x hx
        rw [hupc]
        have hc'lt : c' < st.clusters.length := mem_getD_lt st.clusters c' hx
        rw [hgetlt c' hc'lt]
        exact hx
      · refine ⟨st.clusters.length, ?_, ?_⟩ <;> rw [hupc, hgetL] <;> simp

/-- The clustering loop preserves the invariant, only grows clusters, and
pairs every non-negative prediction with its mention in a common
cluster. -/
theorem gpcLoop_inv (starts ends : List Int) (n : Nat)
    (hinj : ∀ i, i < n → ∀ j, j < n →
      spanAt starts ends i = spanAt starts ends j → i = j) :
    ∀ (rest : List Int) (k : Nat) (st st' : ClusterState),
      gpcLoop starts ends k rest st = some st' →
      k + rest.length ≤ n →
      DecodeInv starts ends k st →
      DecodeInv starts ends (k + rest.length) st' ∧
      (∀ c, ∀ x ∈ st.clusters.getD c [], x ∈ st'.clusters.getD c []) ∧
      (∀ j p, rest.get? j = some p → 0 ≤ p →
        ∀ mi mp, spanAt starts ends (k + j) = some mi →
          spanAt starts ends p.toNat = some mp →
          ∃ c, mi ∈ st'.clusters.getD c [] ∧ mp ∈ st'.clusters.getD c [])
  | [], k, st, st', hloop, hn, hinv => by
      have hst : st = st' := by
        simp [gpcLoop] at hloop
        exact hloop
      subst hst
      refine ⟨by simpa using hinv, fun c x hx => hx, ?_⟩
      intro j p hp
      simp at hp
  | p :: rest, k, st, st', hloop, hn, hinv => by
      rw [gpcLoop] at hloop
      cases hst1 : gpcStep starts ends k p st with
      | none => rw [hst1] at hloop; exact absurd hloop (by simp)
      | some st1 =>
          rw [hst1] at hloop
          have hn' : (k + 1) + rest.length ≤ n := by
            simp only [List.length_cons] at hn
            omega
          by_cases hpneg : p < 0
          · have hst : st1 = st := by
              rw [gpcStep, if_pos hpneg] at hst1
              injection hst1 with h
              exact h.symm
            subst hst
            have ih := gpcLoop_inv starts ends n hinj rest (k + 1) st1 st'
              hloop hn' (decodeInv_mono starts ends k (k + 1) st1
                (by omega) hinv)
            refine ⟨?_, ih.2.1, ?_⟩
            · have harith : k + (p :: rest).length = (k + 1) + rest.length := by
                simp
                omega
              rw [harith]
              exact ih.1
            · intro j q hq hq0 mi mp hmi hmp
              cases j with
              | zero =>
                  simp at hq
                  omega
              | succ j =>
                  have harith : k + (j + 1) = (k + 1) + j := by omega
                  rw [harith] at hmi
                  exact ih.2.2 j q (by simpa using hq) hq0 mi mp hmi hmp
          · by_cases hpk : p < (k : Int)
            · rw [gpcStep, if_neg hpneg, if_pos hpk] at hst1
              cases hant : spanAt starts ends p.toNat with
              | none => rw [hant] at hst1; exact absurd hst1 (by simp)
              | some ant =>
                  cases hmsp : spanAt starts ends k with
                  | none =>
                      rw [hant, hmsp] at hst1
                      exact absurd hst1 (by simp)
                  | some m =>
                      rw [hant, hmsp] at hst1
                      have hst1' : st1 = gpcUpdate st ant m := by
                        have : some (gpcUpdate st ant m) = some st1 := hst1
                        injection this with h
                        exact h.symm
                      subst hst1'
                      have hkn : k < n := by
                        simp only [List.length_cons] at hn
                        omega
                      have hupd := gpcUpdate_inv starts ends n k p.toNat
                        hinj hkn (by omega) st ant m hant hmsp hinv
                      have ih := gpcLoop_inv starts ends n hinj rest (k + 1)
                        (gpcUpdate st ant m) st' hloop hn' hupd.1
                      refine ⟨?_, ?_, ?_⟩
                      · have harith : k + (p :: rest).length =
                            (k + 1) + rest.length := by
                          simp
                          omega
                        rw [harith]
                        exact ih.1
                      · intro c x hx
                        exact ih.2.1 c x (hupd.2.1 c x hx)
                      · intro j q hq hq0 mi mp hmi hmp
                        cases j with
                        | zero =>
                            have hqp : p = q := by simpa using hq
                            subst hqp
                            have hmi' : mi = m := by
                              rw [show k + 0 = k by omega, hmsp] at hmi
                              injection hmi with h
                              exact h.symm
                            have hmp' : mp = ant := by
                              rw [hant] at hmp
                              injection hmp with h
                              exact h.symm
                            subst hmi'
                            subst hmp'
                            obtain ⟨c, hc1, hc2⟩ := hupd.2.2
                            exact ⟨c, ih.2.1 c mi hc1, ih.2.1 c mp hc2⟩
                        | succ j =>
                            have harith : k + (j + 1) = (k + 1) + j := by
                              omega
                            rw [harith] at hmi
                            exact ih.2.2 j q (by simpa using hq) hq0 mi mp
                              hmi hmp
            · rw [gpcStep, if_neg hpneg, if_neg hpk] at hst1
              exact absurd hst1 (by simp)

/-- C2 counterexample to the claim as stated: in the single-mention
document with span `(0,0)` and score row `[5, 1]`, the highest-scoring
slot is the "no antecedent" slot (column 0), so the decode predicts `-1`
— but the code `continue`s over such mentions (model.py lines 742-743):
no new cluster is started, the returned clustering is empty, and the
decoded mention appears in zero clusters of it, not one. -/
theorem C2_skipped_mention_counterexample :
    getPredictedAntecedents [[]] ([[5, 1]] : List (List Int)) =
      some [-1] ∧
    getPredictedClusters [0] [0] [-1] = some ([], []) ∧
    (([] : List (List Span)).countP
      (fun c => decide (((0 : Int), (0 : Int)) ∈ c)) ≠ 1) := by
  decide

/-- C2: under the decode preconditions (pairwise-distinct mention spans;
the run completes), every decoded mention — every span placed in the
returned `mention_to_predicted` mapping — appears in exactly one cluster
of the returned clustering, namely the cluster the mapping assigns it,
and every mention with a non-negative predicted antecedent shares a
cluster with its predicted antecedent (union by representative). -/
theorem C2_decoded_mentions_unique_cluster (starts ends : List Int)
    (pa : List Int)
    (hinj : ∀ i, i < pa.length → ∀ j, j < pa.length →
      spanAt starts ends i = spanAt starts ends j → i = j)
    (cls : List (List Span)) (m2p : List (Span × List Span))
    (hrun : getPredictedClusters starts ends pa = some (cls, m2p)) :
    (∀ m cl, dictLookup m2p m = some cl →
      cls.countP (fun c => decide (m ∈ c)) = 1 ∧ m ∈ cl ∧ cl ∈ cls) ∧
    (∀ i p, pa.get? i = some p → 0 ≤ p →
      ∀ mi mp, spanAt starts ends i = some mi →
        spanAt starts ends p.toNat = some mp →
        ∃ c ∈ cls, mi ∈ c ∧ mp ∈ c) := by
  rw [getPredictedClusters] at hrun
  cases hloop : gpcLoop starts ends 0 pa ⟨[], []⟩ with
  | none => rw [hloop] at hrun; exact absurd hrun (by simp)
  | some st =>
      rw [hloop] at hrun
      simp only [Option.some.injEq, Prod.mk.injEq] at hrun
      obtain ⟨hcls, hm2p⟩ := hrun
      have hloopinv := gpcLoop_inv starts ends pa.length hinj pa 0 ⟨[], []⟩
        st hloop (by simp) (decodeInv_init starts ends)
      obtain ⟨⟨hI1, _, _⟩, _, hpair⟩ := hloopinv
      constructor
      · intro m cl hcl
        rw [← hm2p] at hcl
        have hcl2 : (dictLookup st.m2p m).map
            (fun c => st.clusters.getD c []) = some cl :=
          (dictLookup_map_val (fun c => st.clusters.getD c [])
            st.m2p m).symm.trans hcl
        cases hdl : dictLookup st.m2p m with
        | none => rw [hdl] at hcl2; exact absurd hcl2 (by simp)
        | some c0 =>
            rw [hdl] at hcl2
            have hcl3 : st.clusters.getD c0 [] = cl := by simpa using hcl2
            obtain ⟨hmem, hcount⟩ := hI1 m c0 hdl
            have hlt : c0 < st.clusters.length := mem_getD_lt st.clusters c0 hmem
            refine ⟨by rw [← hcls]; exact hcount,
              by rw [← hcl3]; exact hmem, ?_⟩
            rw [← hcl3, ← hcls, List.getD_eq_getElem _ _ hlt]
            exact List.getElem_mem hlt
      · intro i p hp hp0 mi mp hmi hmp
        obtain ⟨c, hc1, hc2⟩ := hpair i p hp hp0 mi mp
          (by rw [show (0 : Nat) + i = i by omega]; exact hmi) hmp
        have hlt : c < st.clusters.length := mem_getD_lt st.clusters c hc1
        refine ⟨st.clusters.getD c [], ?_, hc1, hc2⟩
        rw [← hcls, List.getD_eq_getElem _ _ hlt]
        exact List.getElem_mem hlt

/-- Witness for C2 on a three-mention chain: mention 1 points to 0,
mention 2 points to 1, producing the single cluster
`[(0,0),(1,1),(2,2)]`. -/
theorem C2_decoded_mentions_unique_cluster_witness :
    getPredictedClusters [0, 1, 2] [0, 1, 2] [-1, 0, 1] =
      some ([[((0 : Int), (0 : Int)), (1, 1), (2, 2)]],
        [(((0 : Int), (0 : Int)), [((0 : Int), (0 : Int)), (1, 1), (2, 2)]),
         ((1, 1), [((0 : Int), (0 : Int)), (1, 1), (2, 2)]),
         ((2, 2), [((0 : Int), (0 : Int)), (1, 1), (2, 2)])]) ∧
    ([[((0 : Int), (0 : Int)), (1, 1), (2, 2)]] :
        List (List Span)).countP
      (fun c => decide (((2 : Int), (2 : Int)) ∈ c)) = 1 ∧
    ∃ c ∈ ([[((0 : Int), (0 : Int)), (1, 1), (2, 2)]] : List (List Span)),
      ((1 : Int), (1 : Int)) ∈ c ∧ ((0 : Int), (0 : Int)) ∈ c := by
  have hrun : getPredictedClusters [0, 1, 2] [0, 1, 2] [-1, 0, 1] =
      some ([[((0 : Int), (0 : Int)), (1, 1), (2, 2)]],
        [(((0 : Int), (0 : Int)), [((0 : Int), (0 : Int)), (1, 1), (2, 2)]),
         ((1, 1), [((0 : Int), (0 : Int)), (1, 1), (2, 2)]),
         ((2, 2), [((0 : Int), (0 : Int)), (1, 1), (2, 2)])]) := by decide
  have h := C2_decoded_mentions_unique_cluster [0, 1, 2] [0, 1, 2] [-1, 0, 1]
    (by decide) _ _ hrun
  refine ⟨hrun, ?_, ?_⟩
  · exact (h.1 (2, 2) [((0 : Int), (0 : Int)), (1, 1), (2, 2)]
      (by decide)).1
  · exact h.2 1 0 (by decide) (by decide) (1, 1) (0, 0) (by decide) (by decide)

end DP
